import Mathlib

/-!
Verification development for the leader-hotkeys plugin core
(the key-chord value type, the prefix trie of registered sequences,
the live matching state machine, and the sequence-capture state machine).

The definitions below are a shallow embedding of the TypeScript source.
JavaScript mutable objects become explicit state passing; the nullable
trie value (T | null | undefined) becomes Option (Option _), where the
outer none models the JS undefined (never assigned) and some none models
the JS null (cleared by addChild); exceptions become an explicit Bool
"threw" flag carried next to the mutated structure, because the source
mutates the trie before the duplicate check fires.
-/

/-- Classification of a chord, from KeyPress.classification in the source:
NoKey for modifier-only chords, SpecialKey for Enter and Escape,
NormalKey otherwise. -/
inductive KeyClassification where
  | NoKey
  | SpecialKey
  | NormalKey
deriving DecidableEq

/-- One key press together with its modifier flags
(class KeyPress in the source). -/
structure KeyPress where
  key : String
  shift : Bool
  alt : Bool
  ctrl : Bool
  meta : Bool
deriving DecidableEq

/-- Human readable form, from KeyPress.repr: marker for each active
modifier in the order meta, ctrl, alt, shift, then the literal key. -/
def KeyPress.repr (p : KeyPress) : String :=
  (if p.meta then "⌘ + " else "") ++
  (if p.ctrl then "Ctrl + " else "") ++
  (if p.alt then "Alt + " else "") ++
  (if p.shift then "⇧ + " else "") ++
  p.key

/-- Canonical serialization used as trie key (KeyPress.serialize
delegates to repr). -/
def KeyPress.serialize (p : KeyPress) : String :=
  p.repr

/-- KeyPress.classification from the source.  The source also treats a
null or undefined key as NoKey; a Lean String is always present, so only
the string comparisons are modelled. -/
def KeyPress.classification (p : KeyPress) : KeyClassification :=
  if p.key = "Alt" ∨ p.key = "Control" ∨ p.key = "Shift" ∨ p.key = "Meta" then
    KeyClassification.NoKey
  else if p.key = "Enter" ∨ p.key = "Escape" then
    KeyClassification.SpecialKey
  else
    KeyClassification.NormalKey

/-- A registered binding: command identifier plus chord sequence
(class KeyMap in the source). -/
structure KeyMap where
  commandID : String
  sequence : List KeyPress
deriving DecidableEq

/-- A trie node (class TrieNode in the source).  The value field models
the JS field of type T | null | undefined: none is undefined (never
assigned), some none is null (assigned by addChild), some (some v) is a
stored binding.  The children map is an insertion-ordered association
list, like a JS Map. -/
inductive TrieNode (α : Type) where
  | mk (value : Option (Option α)) (children : List (String × TrieNode α))

/-- The raw value field of a node. -/
def TrieNode.storedValue {α : Type} : TrieNode α → Option (Option α)
  | TrieNode.mk v _ => v

/-- The children association list of a node. -/
def TrieNode.children {α : Type} : TrieNode α → List (String × TrieNode α)
  | TrieNode.mk _ cs => cs

/-- The binding stored at a node, collapsing the JS null/undefined
distinction (consumers of the value treat both as absent). -/
def TrieNode.boundValue {α : Type} (n : TrieNode α) : Option α :=
  match n.storedValue with
  | some o => o
  | none => none

/-- Map.get on the children (TrieNode.child in the source). -/
def childGet {α : Type} : List (String × TrieNode α) → String → Option (TrieNode α)
  | [], _ => none
  | (k', c) :: rest, k => if k' = k then some c else childGet rest k

/-- Map.set on the children: overwrite in place keeping order, else
append (JS Map.set semantics). -/
def setChild {α : Type} (k : String) (c : TrieNode α) :
    List (String × TrieNode α) → List (String × TrieNode α)
  | [] => [(k, c)]
  | (k', c') :: rest => if k' = k then (k, c) :: rest else (k', c') :: setChild k c rest

/-- TrieNode.addChild from the source: sets the node value to null and
stores the child under the key. -/
def TrieNode.addChild {α : Type} (n : TrieNode α) (k : String) (c : TrieNode α) :
    TrieNode α :=
  TrieNode.mk (some none) (setChild k c n.children)

/-- TrieNode.setValue from the source. -/
def TrieNode.setValue {α : Type} (n : TrieNode α) (x : α) : TrieNode α :=
  TrieNode.mk (some (some x)) n.children

/-- TrieNode.isLeaf: no children. -/
def TrieNode.isLeaf {α : Type} (n : TrieNode α) : Bool :=
  n.children.isEmpty

mutual

/-- TrieNode.leaves from the source: a leaf returns itself, an internal
node concatenates the leaves of its children in map order. -/
def TrieNode.leaves {α : Type} : TrieNode α → List (TrieNode α)
  | TrieNode.mk v [] => [TrieNode.mk v []]
  | TrieNode.mk _ (c :: cs) => TrieNode.leavesList (c :: cs)

/-- Concatenation of the leaves of a children list, in order. -/
def TrieNode.leavesList {α : Type} : List (String × TrieNode α) → List (TrieNode α)
  | [] => []
  | (_, c) :: rest => TrieNode.leaves c ++ TrieNode.leavesList rest

end

/-- TrieNode.leafValues: the stored value of every leaf below the node
(in the source the element type is Optional, since an internal-turned
value may have been nulled). -/
def TrieNode.leafValues {α : Type} (n : TrieNode α) : List (Option α) :=
  n.leaves.map TrieNode.boundValue

/-- Trie.add from the source, walking and mutating one component at a
time.  The Bool result records whether the Duplicate keymap error was
thrown at the terminal node.  The source mutates the tree (addChild:
value := null, children.set) before the duplicate check runs, so the
mutated tree is returned even on the throwing path, exactly as the
JS object graph is left. -/
def trieAddGo {α : Type} : TrieNode α → List String → α → TrieNode α × Bool
  | n, [], x =>
    match n.storedValue with
    | none => (n.setValue x, false)
    | some _ => (n, true)
  | n, k :: rest, x =>
    let child := (childGet n.children k).getD (TrieNode.mk none [])
    let r := trieAddGo child rest x
    (n.addChild k r.fst, r.snd)

/-- Trie.add on a KeyMap composite: each component is keyed by its
canonical serialization. -/
def trieAdd (root : TrieNode KeyMap) (m : KeyMap) : TrieNode KeyMap × Bool :=
  trieAddGo root (m.sequence.map KeyPress.serialize) m

/-- Trie.bestMatch from the source: strict prefix walk from the root
following canonical keys; none as soon as an edge is missing. -/
def bestMatch {α : Type} : TrieNode α → List KeyPress → Option (TrieNode α)
  | n, [] => some n
  | n, p :: rest =>
    match childGet n.children p.serialize with
    | none => none
    | some c => bestMatch c rest

/-- Lookup classification (enum MatchClassification in the source). -/
inductive MatchClassification where
  | NoMatch
  | PartialMatch
  | FullMatch
deriving DecidableEq

/-- States of the live matching machine (enum KeyMatchingState). -/
inductive KeyMatchingState where
  | NoMatch
  | StartedMatch
  | RetainedMatch
  | ImprovedMatch
  | SuccessMatch
  | InvalidMatch
deriving DecidableEq

/-- KeyMatcher.classify from the source. -/
def classifyMatch (b : Option (TrieNode KeyMap)) : MatchClassification :=
  match b with
  | none => MatchClassification.NoMatch
  | some n => if n.isLeaf then MatchClassification.FullMatch else MatchClassification.PartialMatch

/-- The bindings the source computes for a lookup buffer:
bestMatch ? bestMatch.leafValues() : []. -/
def matchesUnder (t : TrieNode KeyMap) (seq : List KeyPress) : List (Option KeyMap) :=
  match bestMatch t seq with
  | some n => n.leafValues
  | none => []

/-- The live matching machine (class KeyMatcher in the source): the trie,
the current state, the chord buffer, and the cached reachable bindings. -/
structure KeyMatcher where
  trie : TrieNode KeyMap
  currentState : KeyMatchingState
  currentSequence : List KeyPress
  currentMatches : List (Option KeyMap)

/-- The KeyMatcher constructor. -/
def KeyMatcher.init (t : TrieNode KeyMap) : KeyMatcher :=
  ⟨t, KeyMatchingState.NoMatch, [], []⟩

/-- KeyMatcher.reset from the source. -/
def KeyMatcher.reset (m : KeyMatcher) : KeyMatcher :=
  { m with currentState := KeyMatchingState.NoMatch, currentSequence := [], currentMatches := [] }

/-- The body of KeyMatcher.advance for a non-terminal current state:
push the chord, look up the buffer, cache the reachable bindings, then
switch on the current state.  In the RetainedMatch transition the source
pops the just-pushed chord, restoring the previous buffer, but the cached
matches were already computed from the pushed buffer.  The terminal
states are handled by KeyMatcher.advance below (the source recurses
there after reset). -/
def KeyMatcher.advanceStep (m : KeyMatcher) (keypress : KeyPress) : KeyMatcher :=
  let seq := m.currentSequence ++ [keypress]
  let mc := classifyMatch (bestMatch m.trie seq)
  let found := matchesUnder m.trie seq
  match m.currentState with
  | KeyMatchingState.NoMatch =>
    if mc = MatchClassification.NoMatch then
      { m with currentState := KeyMatchingState.NoMatch,
               currentSequence := [], currentMatches := [] }
    else if mc = MatchClassification.FullMatch then
      { m with currentState := KeyMatchingState.SuccessMatch,
               currentSequence := seq, currentMatches := found }
    else
      { m with currentState := KeyMatchingState.StartedMatch,
               currentSequence := seq, currentMatches := found }
  | KeyMatchingState.StartedMatch | KeyMatchingState.RetainedMatch
  | KeyMatchingState.ImprovedMatch =>
    if keypress.classification = KeyClassification.NoKey then
      { m with currentState := KeyMatchingState.RetainedMatch,
               currentSequence := m.currentSequence, currentMatches := found }
    else if mc = MatchClassification.NoMatch then
      { m with currentState := KeyMatchingState.InvalidMatch,
               currentSequence := seq, currentMatches := found }
    else if mc = MatchClassification.FullMatch then
      { m with currentState := KeyMatchingState.SuccessMatch,
               currentSequence := seq, currentMatches := found }
    else
      { m with currentState := KeyMatchingState.ImprovedMatch,
               currentSequence := seq, currentMatches := found }
  | KeyMatchingState.SuccessMatch | KeyMatchingState.InvalidMatch => m

/-- KeyMatcher.advance.  In the terminal states the source resets and
calls itself once; after the reset the state is NoMatch, whose branch
never recurses, so one unfolding of the self-call is exact (the fueled
version below carries the literal recursion). -/
def KeyMatcher.advance (m : KeyMatcher) (keypress : KeyPress) : KeyMatcher :=
  match m.currentState with
  | KeyMatchingState.SuccessMatch | KeyMatchingState.InvalidMatch =>
    KeyMatcher.advanceStep m.reset keypress
  | _ => m.advanceStep keypress

/-- KeyMatcher.advance with the source's literal self-call, guarded by
fuel: none means the recursion budget ran out. -/
def KeyMatcher.advanceFuel : Nat → KeyMatcher → KeyPress → Option KeyMatcher
  | 0, _, _ => none
  | fuel + 1, m, keypress =>
    match m.currentState with
    | KeyMatchingState.SuccessMatch | KeyMatchingState.InvalidMatch =>
      KeyMatcher.advanceFuel fuel m.reset keypress
    | _ => some (m.advanceStep keypress)

/-- KeyMatcher.allMatches. -/
def KeyMatcher.allMatches (m : KeyMatcher) : List (Option KeyMap) :=
  m.currentMatches

/-- KeyMatcher.fullMatch from the source, including the sanity check that
degrades to none when the state is SuccessMatch but the cached match
count is not exactly one. -/
def KeyMatcher.fullMatch (m : KeyMatcher) : Option KeyMap :=
  let numMatches := m.allMatches.length
  if m.currentState = KeyMatchingState.SuccessMatch ∧ numMatches ≠ 1 then
    none
  else if m.currentState = KeyMatchingState.SuccessMatch ∧ numMatches = 1 then
    (m.currentMatches.head?).getD none
  else
    none

/-- Feeding a whole chord list to the matcher, one advance per chord. -/
def runMatcher (m : KeyMatcher) (l : List KeyPress) : KeyMatcher :=
  l.foldl KeyMatcher.advance m

/-- The matcher states reachable from the constructor by advance calls. -/
inductive KeyMatcher.Reachable (t : TrieNode KeyMap) : KeyMatcher → Prop where
  | init : KeyMatcher.Reachable t (KeyMatcher.init t)
  | step (m : KeyMatcher) (k : KeyPress) :
      KeyMatcher.Reachable t m → KeyMatcher.Reachable t (m.advance k)

/-- The middle group of matcher states (StartedMatch, RetainedMatch,
ImprovedMatch), which the source handles by one shared switch arm. -/
def inProgress (s : KeyMatchingState) : Prop :=
  s = KeyMatchingState.StartedMatch ∨ s = KeyMatchingState.RetainedMatch ∨
    s = KeyMatchingState.ImprovedMatch

/-- Bare-modifier noise inserted strictly between consecutive chords of
a sequence: NoiseBetween s t holds when t is s with any number of
NoKey-classified chords inserted between each adjacent pair (never
before the first chord or after the last). -/
inductive NoiseBetween : List KeyPress → List KeyPress → Prop where
  | last (c : KeyPress) : NoiseBetween [c] [c]
  | cons (c : KeyPress) (noise s s' : List KeyPress) :
      (∀ p ∈ noise, p.classification = KeyClassification.NoKey) →
      NoiseBetween s s' →
      NoiseBetween (c :: s) (c :: (noise ++ s'))

/-- States of the capture machine (enum KeyRegisterState). -/
inductive KeyRegisterState where
  | NoKeys
  | FirstKey
  | AddedKeys
  | RetainedKeys
  | BacktrackedKey
  | PendingConfirmation
  | FinishedRegistering
deriving DecidableEq

/-- The capture machine (class RegisterMachine in the source). -/
structure RegisterMachine where
  currentState : KeyRegisterState
  currentSequence : List KeyPress
deriving DecidableEq

/-- The RegisterMachine constructor. -/
def RegisterMachine.init : RegisterMachine :=
  ⟨KeyRegisterState.NoKeys, []⟩

/-- RegisterMachine.reset from the source. -/
def RegisterMachine.reset (_ : RegisterMachine) : RegisterMachine :=
  ⟨KeyRegisterState.NoKeys, []⟩

/-- The body of RegisterMachine.advance for a non-terminal current
state: push the chord, then switch on the current state.  Branches that
pop the just-pushed chord leave the buffer unchanged.  The terminal
state is handled by RegisterMachine.advance below. -/
def RegisterMachine.advanceStep (m : RegisterMachine) (event : KeyPress) : RegisterMachine :=
  let seq := m.currentSequence ++ [event]
  let cls := event.classification
  match m.currentState with
  | KeyRegisterState.NoKeys =>
    if cls = KeyClassification.NoKey then
      ⟨KeyRegisterState.RetainedKeys, m.currentSequence⟩
    else if cls = KeyClassification.SpecialKey then
      ⟨KeyRegisterState.PendingConfirmation, seq⟩
    else
      ⟨KeyRegisterState.FirstKey, seq⟩
  | KeyRegisterState.FirstKey | KeyRegisterState.RetainedKeys
  | KeyRegisterState.BacktrackedKey | KeyRegisterState.AddedKeys =>
    if cls = KeyClassification.NoKey then
      ⟨KeyRegisterState.RetainedKeys, m.currentSequence⟩
    else if cls = KeyClassification.SpecialKey then
      ⟨KeyRegisterState.PendingConfirmation, seq⟩
    else
      ⟨KeyRegisterState.AddedKeys, seq⟩
  | KeyRegisterState.PendingConfirmation =>
    if event.key = "Enter" ∧ event.ctrl = true ∧ event.alt = true then
      ⟨KeyRegisterState.FinishedRegistering, m.currentSequence⟩
    else if event.key = "Enter" then
      ⟨KeyRegisterState.AddedKeys, seq⟩
    else if event.key = "Backspace" then
      ⟨KeyRegisterState.BacktrackedKey, m.currentSequence⟩
    else
      ⟨KeyRegisterState.PendingConfirmation, seq⟩
  | KeyRegisterState.FinishedRegistering => m

/-- RegisterMachine.advance.  From FinishedRegistering the source resets
and calls itself once; the reset state is NoKeys, whose branch never
recurses, so one unfolding is exact. -/
def RegisterMachine.advance (m : RegisterMachine) (event : KeyPress) : RegisterMachine :=
  match m.currentState with
  | KeyRegisterState.FinishedRegistering => RegisterMachine.advanceStep m.reset event
  | _ => m.advanceStep event

/-- RegisterMachine.advance with the source's literal self-call, guarded
by fuel. -/
def RegisterMachine.advanceFuel : Nat → RegisterMachine → KeyPress → Option RegisterMachine
  | 0, _, _ => none
  | fuel + 1, m, event =>
    match m.currentState with
    | KeyRegisterState.FinishedRegistering =>
      RegisterMachine.advanceFuel fuel m.reset event
    | _ => some (m.advanceStep event)

/-- RegisterMachine.presses. -/
def RegisterMachine.presses (m : RegisterMachine) : List KeyPress :=
  m.currentSequence

/-- RegisterMachine.representation. -/
def RegisterMachine.representation (m : RegisterMachine) : String :=
  String.intercalate " => " (m.currentSequence.map KeyPress.repr)

/-- Outcome of the plugin key-down handler: whether default handling of
the originating event was suppressed (preventDefault) and which binding,
if any, was dispatched. -/
structure KeyDownResult where
  suppress : Bool
  dispatched : Option KeyMap
deriving DecidableEq

/-- LeaderHotkeysPlugin.handleKeyDown from the source: advance the
matcher, then switch on the resulting state.  Every state except NoMatch
calls preventDefault; SuccessMatch additionally dispatches fullMatch. -/
def handleKeyDown (m : KeyMatcher) (k : KeyPress) : KeyMatcher × KeyDownResult :=
  let m' := m.advance k
  match m'.currentState with
  | KeyMatchingState.NoMatch => (m', ⟨false, none⟩)
  | KeyMatchingState.InvalidMatch => (m', ⟨true, none⟩)
  | KeyMatchingState.StartedMatch => (m', ⟨true, none⟩)
  | KeyMatchingState.RetainedMatch => (m', ⟨true, none⟩)
  | KeyMatchingState.ImprovedMatch => (m', ⟨true, none⟩)
  | KeyMatchingState.SuccessMatch => (m', ⟨true, m'.fullMatch⟩)

/-- Concrete chords and bindings used by the concrete theorems below
(drawn from the default binding table of the source). -/
def pressCtrlB : KeyPress := ⟨"b", false, false, true, false⟩

/-- The plain h chord. -/
def pressH : KeyPress := ⟨"h", false, false, false, false⟩

/-- A bare Shift key-down chord (modifier only, classified NoKey). -/
def pressShiftBare : KeyPress := ⟨"Shift", true, false, false, false⟩

/-- A plain letter chord used by the capture-machine runs. -/
def pressA : KeyPress := ⟨"a", false, false, false, false⟩

/-- A plain Escape chord (SpecialKey). -/
def pressEsc : KeyPress := ⟨"Escape", false, false, false, false⟩

/-- A plain Backspace chord. -/
def pressBack : KeyPress := ⟨"Backspace", false, false, false, false⟩

/-- A one-chord binding used to exhibit the destructive extension insert. -/
def kmShort : KeyMap := ⟨"cmd1", [pressCtrlB]⟩

/-- A two-chord binding extending kmShort's sequence. -/
def kmLong : KeyMap := ⟨"cmd2", [pressCtrlB, pressH]⟩

/-- The focus-left binding Ctrl+b, h from the default table. -/
def kmFocusLeft : KeyMap := ⟨"editor:focus-left", [pressCtrlB, pressH]⟩

/-- The empty trie root. -/
def trieEmpty : TrieNode KeyMap := TrieNode.mk none []

/-- A trie holding only the focus-left binding. -/
def trieDemo : TrieNode KeyMap := (trieAdd trieEmpty kmFocusLeft).fst


/-- Whether a character list starts with the three-character modifier
separator (space, plus, space) used by the serialization markers. -/
def startsSep : List Char → Bool
  | ' ' :: '+' :: ' ' :: _ => true
  | _ => false

/-- Whether the modifier separator occurs anywhere in the list. -/
def containsSep : List Char → Bool
  | [] => false
  | c :: rest => startsSep (c :: rest) || containsSep rest

/-- A key string that does not contain the modifier separator; the
serialization is injective on chords with such keys. -/
def plainKey (s : String) : Prop := containsSep s.data = false

/-- Character list of the meta marker of KeyPress.repr. -/
def metaMark : List Char := ['⌘', ' ', '+', ' ']

/-- Character list of the ctrl marker of KeyPress.repr. -/
def ctrlMark : List Char := ['C', 't', 'r', 'l', ' ', '+', ' ']

/-- Character list of the alt marker of KeyPress.repr. -/
def altMark : List Char := ['A', 'l', 't', ' ', '+', ' ']

/-- Character list of the shift marker of KeyPress.repr. -/
def shiftMark : List Char := ['⇧', ' ', '+', ' ']

/-- A marker list that is present only when its flag is set. -/
def markIf : Bool → List Char → List Char
  | true, m => m
  | false, _ => []

/-! ## Helper lemmas -/

/-- If the lookup classified as NoMatch, the lookup found no node, so the
computed match list is empty. -/
theorem matchesUnder_eq_nil_of_noMatch (t : TrieNode KeyMap) (s : List KeyPress)
    (h : classifyMatch (bestMatch t s) = MatchClassification.NoMatch) :
    matchesUnder t s = [] := by
  unfold matchesUnder
  unfold classifyMatch at h
  cases hb : bestMatch t s with
  | none => rfl
  | some n =>
    rw [hb] at h
    by_cases hl : n.isLeaf <;> simp [hl] at h

/-- For a non-terminal state, advance is one advanceStep. -/
theorem advance_eq_step (m : KeyMatcher) (k : KeyPress)
    (h1 : m.currentState ≠ KeyMatchingState.SuccessMatch)
    (h2 : m.currentState ≠ KeyMatchingState.InvalidMatch) :
    m.advance k = m.advanceStep k := by
  rcases m with ⟨t, st, seq0, ms⟩
  simp only at h1 h2
  cases st <;>
    first
      | exact absurd rfl h1
      | exact absurd rfl h2
      | rfl

/-- The cached matches after one advanceStep are those computed from the
pushed buffer (old buffer plus the new chord), in every branch. -/
theorem advanceStep_matches (m : KeyMatcher) (k : KeyPress)
    (h1 : m.currentState ≠ KeyMatchingState.SuccessMatch)
    (h2 : m.currentState ≠ KeyMatchingState.InvalidMatch) :
    (m.advanceStep k).currentMatches = matchesUnder m.trie (m.currentSequence ++ [k]) := by
  rcases m with ⟨t, st, seq0, ms⟩
  simp only at h1 h2 ⊢
  cases st <;>
    first
      | exact absurd rfl h1
      | exact absurd rfl h2
      | (simp only [KeyMatcher.advanceStep]
         split_ifs with ha hb <;>
           first
             | rfl
             | exact (matchesUnder_eq_nil_of_noMatch _ _ ha).symm)

/-- After one advanceStep whose result state is NoMatch, buffer and
cached matches are empty (only the reset branch yields NoMatch). -/
theorem advanceStep_noMatch_empty (m : KeyMatcher) (k : KeyPress)
    (h : (m.advanceStep k).currentState = KeyMatchingState.NoMatch) :
    (m.advanceStep k).currentSequence = [] ∧ (m.advanceStep k).currentMatches = [] := by
  rcases m with ⟨t, st, seq0, ms⟩
  cases st <;> simp only [KeyMatcher.advanceStep] at h ⊢ <;>
    first
      | (split_ifs at h ⊢ <;> simp_all)
      | simp_all

/-- After one advance whose result state is NoMatch, buffer and cached
matches are empty. -/
theorem advance_noMatch_empty (m : KeyMatcher) (k : KeyPress)
    (h : (m.advance k).currentState = KeyMatchingState.NoMatch) :
    (m.advance k).currentSequence = [] ∧ (m.advance k).currentMatches = [] := by
  rcases m with ⟨t, st, seq0, ms⟩
  cases st <;> simp only [KeyMatcher.advance] at h ⊢ <;>
    exact advanceStep_noMatch_empty _ _ h

/-! ## Claim theorems -/

/-- Claim C1 (code bug): inserting a binding whose sequence strictly
extends an already stored binding's sequence does NOT fail: the second
insert returns without the duplicate error, and the previously stored
binding is destroyed (the node that held it is nulled by addChild), so
it is no longer retrievable.  The first two conjuncts show the binding
present after the first insert; the last two conjuncts show the second
insert succeeding and the stored value nulled.  The final two conjuncts
confirm that the identical-sequence and proper-prefix inserts do fail as
the claim states, isolating the divergence to the extension case. -/
theorem trie_extension_insert_overwrites :
    (trieAdd trieEmpty kmShort).snd = false ∧
    ((bestMatch (trieAdd trieEmpty kmShort).fst [pressCtrlB]).map TrieNode.boundValue)
        = some (some kmShort) ∧
    (trieAdd (trieAdd trieEmpty kmShort).fst kmLong).snd = false ∧
    ((bestMatch (trieAdd (trieAdd trieEmpty kmShort).fst kmLong).fst [pressCtrlB]).map
        TrieNode.boundValue) = some none ∧
    (trieAdd (trieAdd trieEmpty kmShort).fst kmShort).snd = true ∧
    (trieAdd (trieAdd trieEmpty kmLong).fst kmShort).snd = true := by
  decide

/-- Claim C2: fullMatch returns a binding exactly when the state is
SuccessMatch and the reachable-binding list is that single binding; in
SuccessMatch with a match count other than one it degrades to none.
The set of bindings reachable from the current buffer is formalized as
the machine's allMatches list (the source's availableHotkeys, whose
length the sanity check inspects). -/
theorem fullMatch_spec (t : TrieNode KeyMap) (m : KeyMatcher) (b : KeyMap)
    (_ : KeyMatcher.Reachable t m) :
    (m.fullMatch = some b ↔
      (m.currentState = KeyMatchingState.SuccessMatch ∧ m.allMatches = [some b])) ∧
    (m.currentState = KeyMatchingState.SuccessMatch → m.allMatches.length ≠ 1 →
      m.fullMatch = none) := by
  unfold KeyMatcher.fullMatch KeyMatcher.allMatches
  rcases m with ⟨t', st, seq, ms⟩
  simp only
  by_cases hs : st = KeyMatchingState.SuccessMatch
  · subst hs
    rcases ms with _ | ⟨v, _ | ⟨w, rest⟩⟩ <;> simp
  · simp [hs]

/-- Witness for fullMatch_spec at a concrete reachable SuccessMatch
state. -/
theorem fullMatch_spec_witness :
    (((KeyMatcher.init trieDemo).advance pressCtrlB).advance pressH).fullMatch
        = some kmFocusLeft ↔
      ((((KeyMatcher.init trieDemo).advance pressCtrlB).advance pressH).currentState
          = KeyMatchingState.SuccessMatch ∧
        (((KeyMatcher.init trieDemo).advance pressCtrlB).advance pressH).allMatches
          = [some kmFocusLeft]) :=
  (fullMatch_spec trieDemo _ kmFocusLeft
    (KeyMatcher.Reachable.step _ pressH
      (KeyMatcher.Reachable.step _ pressCtrlB KeyMatcher.Reachable.init))).1

/-- Claim C5: from a terminal state (SuccessMatch or InvalidMatch),
advancing with a chord behaves exactly like advancing a freshly
constructed engine over the same trie with that chord: same state,
buffer, allMatches and fullMatch. -/
theorem terminal_replay_eq_fresh (m : KeyMatcher) (k : KeyPress)
    (h : m.currentState = KeyMatchingState.SuccessMatch ∨
      m.currentState = KeyMatchingState.InvalidMatch) :
    (m.advance k).currentState = ((KeyMatcher.init m.trie).advance k).currentState ∧
    (m.advance k).currentSequence = ((KeyMatcher.init m.trie).advance k).currentSequence ∧
    (m.advance k).allMatches = ((KeyMatcher.init m.trie).advance k).allMatches ∧
    (m.advance k).fullMatch = ((KeyMatcher.init m.trie).advance k).fullMatch := by
  have heq : m.advance k = (KeyMatcher.init m.trie).advance k := by
    rcases m with ⟨t', st, seq, ms⟩
    rcases h with h | h <;> simp only at h <;> subst h <;> rfl
  rw [heq]
  exact ⟨rfl, rfl, rfl, rfl⟩

/-- Witness for terminal_replay_eq_fresh at a concrete SuccessMatch
machine. -/
theorem terminal_replay_eq_fresh_witness :
    ((⟨trieDemo, KeyMatchingState.SuccessMatch, [pressCtrlB, pressH],
        [some kmFocusLeft]⟩ : KeyMatcher).advance pressCtrlB).currentState =
      ((KeyMatcher.init trieDemo).advance pressCtrlB).currentState :=
  (terminal_replay_eq_fresh _ pressCtrlB (Or.inl rfl)).1

/-- Claim C9: both advance implementations terminate with the literal
reset-and-replay self-call bounded at depth two: fuel 2 always suffices
and agrees with the total function. -/
theorem advance_recursion_depth_two :
    (∀ (m : KeyMatcher) (k : KeyPress),
        KeyMatcher.advanceFuel 2 m k = some (m.advance k)) ∧
    (∀ (r : RegisterMachine) (e : KeyPress),
        RegisterMachine.advanceFuel 2 r e = some (r.advance e)) := by
  constructor
  · intro m k
    cases hs : m.currentState <;>
      simp [KeyMatcher.advanceFuel, KeyMatcher.advance, KeyMatcher.reset, hs]
  · intro r e
    cases hs : r.currentState <;>
      simp [RegisterMachine.advanceFuel, RegisterMachine.advance, RegisterMachine.reset, hs]

/-- Claim C10: in every reachable matcher state whose current state is
NoMatch (the initial state included), the chord buffer and the cached
match list are both empty. -/
theorem noMatch_state_empty (t : TrieNode KeyMap) (m : KeyMatcher)
    (h : KeyMatcher.Reachable t m)
    (hnm : m.currentState = KeyMatchingState.NoMatch) :
    m.currentSequence = [] ∧ m.currentMatches = [] := by
  revert hnm
  induction h with
  | init => intro _; exact ⟨rfl, rfl⟩
  | step m' k' _ _ => intro hnm; exact advance_noMatch_empty m' k' hnm

/-- Witness for noMatch_state_empty at the initial machine. -/
theorem noMatch_state_empty_witness :
    (KeyMatcher.init trieDemo).currentSequence = [] ∧
      (KeyMatcher.init trieDemo).currentMatches = [] :=
  noMatch_state_empty trieDemo _ KeyMatcher.Reachable.init rfl

/-- Claim C8: the key-down handler suppresses default handling
(preventDefault) exactly when the state returned by advance is not
NoMatch; on NoMatch the event passes through. -/
theorem handleKeyDown_suppress_iff (m : KeyMatcher) (k : KeyPress) :
    (handleKeyDown m k).snd.suppress = true ↔
      ¬ (m.advance k).currentState = KeyMatchingState.NoMatch := by
  cases h : (m.advance k).currentState <;> simp [handleKeyDown, h]

/-- Witness for handleKeyDown_suppress_iff at a concrete chord that
starts a match. -/
theorem handleKeyDown_suppress_iff_witness :
    (handleKeyDown (KeyMatcher.init trieDemo) pressCtrlB).snd.suppress = true :=
  (handleKeyDown_suppress_iff (KeyMatcher.init trieDemo) pressCtrlB).mpr (by decide)

/-- Claim C3 (counterexample): after a RetainedMatch transition that
popped a bare-modifier chord, allMatches is empty even though one
binding is reachable below the longest-prefix node of the retained
(post-transition) buffer: the cached list was computed from the buffer
still holding the popped chord. -/
theorem retained_allMatches_counterexample :
    (((KeyMatcher.init trieDemo).advance pressCtrlB).advance pressShiftBare).currentState
        = KeyMatchingState.RetainedMatch ∧
    matchesUnder trieDemo
        ((((KeyMatcher.init trieDemo).advance pressCtrlB).advance
            pressShiftBare).currentSequence)
        = [some kmFocusLeft] ∧
    (((KeyMatcher.init trieDemo).advance pressCtrlB).advance pressShiftBare).allMatches
        = [] ∧
    ¬ (((KeyMatcher.init trieDemo).advance pressCtrlB).advance pressShiftBare).allMatches
        = matchesUnder trieDemo
            ((((KeyMatcher.init trieDemo).advance pressCtrlB).advance
                pressShiftBare).currentSequence) := by
  decide

/-- Claim C3 (amended): after every advance, allMatches returns the leaf
bindings below the longest-prefix node of the lookup buffer, which is
the pre-transition buffer (empty when the pre-state was terminal)
extended with the incoming chord.  When a bare-modifier chord is popped
in a RetainedMatch transition, the buffer keeps its pre-transition value
but the cached matches still reflect the lookup buffer that included the
popped chord. -/
theorem advance_allMatches_lookup (m : KeyMatcher) (k : KeyPress) :
    (m.advance k).allMatches =
      matchesUnder m.trie
        ((if m.currentState = KeyMatchingState.SuccessMatch ∨
              m.currentState = KeyMatchingState.InvalidMatch then [] else m.currentSequence)
          ++ [k]) ∧
    (inProgress m.currentState → k.classification = KeyClassification.NoKey →
      (m.advance k).currentState = KeyMatchingState.RetainedMatch ∧
      (m.advance k).currentSequence = m.currentSequence) := by
  constructor
  · rcases m with ⟨t, st, seq0, ms⟩
    cases st
    case SuccessMatch =>
      simp only [KeyMatcher.advance, KeyMatcher.allMatches, true_or, if_true]
      exact advanceStep_matches ⟨t, KeyMatchingState.NoMatch, [], []⟩ _ (by simp) (by simp)
    case InvalidMatch =>
      simp only [KeyMatcher.advance, KeyMatcher.allMatches, or_true, if_true]
      exact advanceStep_matches ⟨t, KeyMatchingState.NoMatch, [], []⟩ _ (by simp) (by simp)
    all_goals simp only [KeyMatcher.advance, KeyMatcher.allMatches]
    all_goals rw [if_neg (by simp)]
    all_goals exact advanceStep_matches _ _ (by simp) (by simp)
  · intro hp hk
    rcases hp with h | h | h <;>
      rw [advance_eq_step m k (by simp [h]) (by simp [h])] <;>
      simp [KeyMatcher.advanceStep, h, hk]

/-- Witness for advance_allMatches_lookup at the concrete RetainedMatch
transition. -/
theorem advance_allMatches_lookup_witness :
    ((((KeyMatcher.init trieDemo).advance pressCtrlB).advance pressShiftBare).currentState
        = KeyMatchingState.RetainedMatch ∧
      (((KeyMatcher.init trieDemo).advance pressCtrlB).advance pressShiftBare).currentSequence
        = ((KeyMatcher.init trieDemo).advance pressCtrlB).currentSequence) :=
  (advance_allMatches_lookup ((KeyMatcher.init trieDemo).advance pressCtrlB)
      pressShiftBare).2 (Or.inl (by decide)) (by decide)

/-- Claim C6 (counterexample): in PendingConfirmation, a Backspace chord
does not remove the pending chord from the recorded sequence.  Running
the capture machine on a, Escape, Backspace leaves the recorded presses
at [a, Escape] (only the just-pushed Backspace is popped), not [a]. -/
theorem register_backspace_counterexample :
    (((RegisterMachine.init.advance pressA).advance pressEsc).advance pressBack).currentState
        = KeyRegisterState.BacktrackedKey ∧
    (((RegisterMachine.init.advance pressA).advance pressEsc).advance pressBack).presses
        = [pressA, pressEsc] ∧
    ¬ (((RegisterMachine.init.advance pressA).advance pressEsc).advance pressBack).presses
        = [pressA] := by
  decide

/-- Claim C6 (amended): from PendingConfirmation, Ctrl+Alt+Enter goes to
FinishedRegistering with the confirmation chord excluded; Enter without
both ctrl and alt goes to AddedKeys recording the Enter; Backspace goes
to BacktrackedKey leaving the recorded sequence unchanged (only the
just-pushed Backspace chord is popped, the pending chord stays); any
other chord stays in PendingConfirmation and is recorded. -/
theorem register_pending_transitions (m : RegisterMachine) (e : KeyPress)
    (h : m.currentState = KeyRegisterState.PendingConfirmation) :
    (e.key = "Enter" ∧ e.ctrl = true ∧ e.alt = true →
      m.advance e = ⟨KeyRegisterState.FinishedRegistering, m.currentSequence⟩) ∧
    (e.key = "Enter" → ¬(e.ctrl = true ∧ e.alt = true) →
      m.advance e = ⟨KeyRegisterState.AddedKeys, m.currentSequence ++ [e]⟩) ∧
    (e.key = "Backspace" →
      m.advance e = ⟨KeyRegisterState.BacktrackedKey, m.currentSequence⟩) ∧
    (e.key ≠ "Enter" → e.key ≠ "Backspace" →
      m.advance e = ⟨KeyRegisterState.PendingConfirmation, m.currentSequence ++ [e]⟩) := by
  rcases m with ⟨st, seq0⟩
  simp only at h
  subst h
  refine ⟨?_, ?_, ?_, ?_⟩
  · rintro ⟨h1, h2, h3⟩
    simp [RegisterMachine.advance, RegisterMachine.advanceStep, h1, h2, h3]
  · intro h1 h2
    simp [RegisterMachine.advance, RegisterMachine.advanceStep, h1, h2]
  · intro h1
    simp [RegisterMachine.advance, RegisterMachine.advanceStep, h1]
  · intro h1 h2
    simp [RegisterMachine.advance, RegisterMachine.advanceStep, h1, h2]

/-- Witness for register_pending_transitions: the Backspace clause at a
concrete pending machine. -/
theorem register_pending_transitions_witness :
    (RegisterMachine.mk KeyRegisterState.PendingConfirmation [pressA, pressEsc]).advance
        pressBack
      = ⟨KeyRegisterState.BacktrackedKey, [pressA, pressEsc]⟩ :=
  (register_pending_transitions
      (RegisterMachine.mk KeyRegisterState.PendingConfirmation [pressA, pressEsc])
      pressBack rfl).2.2.1 rfl

/-! ## Lemmas for the modifier-noise idempotence claim -/

/-- Unfolding one advance of a run. -/
theorem runMatcher_cons (m : KeyMatcher) (p : KeyPress) (l : List KeyPress) :
    runMatcher m (p :: l) = runMatcher (m.advance p) l := rfl

/-- Runs compose over list append. -/
theorem runMatcher_append (m : KeyMatcher) (a b : List KeyPress) :
    runMatcher m (a ++ b) = runMatcher (runMatcher m a) b := by
  simp [runMatcher, List.foldl_append]

/-- The strict prefix walk splits over appended buffers. -/
theorem bestMatch_append {α : Type} (n : TrieNode α) (a b : List KeyPress) :
    bestMatch n (a ++ b) = (bestMatch n a).bind (fun x => bestMatch x b) := by
  induction a generalizing n with
  | nil => rfl
  | cons p rest ih =>
    simp only [List.cons_append, bestMatch]
    cases hc : childGet n.children p.serialize with
    | none => rfl
    | some c => exact ih c

/-- A node from which a nonempty walk continues has a child, hence is
not a leaf. -/
theorem isLeaf_false_of_walk_cons {α : Type} (n w : TrieNode α) (c : KeyPress)
    (rest : List KeyPress) (h : bestMatch n (c :: rest) = some w) :
    n.isLeaf = false := by
  rcases n with ⟨v, cs⟩
  cases cs with
  | nil => simp [bestMatch, childGet, TrieNode.children] at h
  | cons x xs => rfl

/-- The leaf values of a leaf are exactly its own stored binding. -/
theorem leafValues_of_leaf {α : Type} (n : TrieNode α) (h : n.isLeaf = true) :
    n.leafValues = [n.boundValue] := by
  rcases n with ⟨v, cs⟩
  cases cs with
  | nil => rfl
  | cons x xs => simp [TrieNode.isLeaf, TrieNode.children] at h

/-- In SuccessMatch with a single cached binding, fullMatch returns it. -/
theorem fullMatch_of_single (m : KeyMatcher) (km : KeyMap)
    (hs : m.currentState = KeyMatchingState.SuccessMatch)
    (hm : m.currentMatches = [some km]) :
    m.fullMatch = some km := by
  unfold KeyMatcher.fullMatch KeyMatcher.allMatches
  rw [hs, hm]
  simp

/-- A noised sequence comes from a nonempty original. -/
theorem noiseBetween_ne_nil {s s' : List KeyPress} (h : NoiseBetween s s') : s ≠ [] := by
  cases h <;> simp

/-- Every nonempty sequence is a noised version of itself (no noise). -/
theorem noiseBetween_self (s : List KeyPress) (h : s ≠ []) : NoiseBetween s s := by
  induction s with
  | nil => exact absurd rfl h
  | cons c rest ih =>
    cases rest with
    | nil => exact NoiseBetween.last c
    | cons d r =>
      have h2 := NoiseBetween.cons c [] (d :: r) (d :: r) (by simp) (ih (by simp))
      simpa using h2

/-- A bare-modifier chord in a progress state pops back out: the state
becomes RetainedMatch and trie and buffer are unchanged. -/
theorem advance_inProgress_noKey (m : KeyMatcher) (p : KeyPress)
    (hp : inProgress m.currentState)
    (hk : p.classification = KeyClassification.NoKey) :
    (m.advance p).trie = m.trie ∧
    (m.advance p).currentSequence = m.currentSequence ∧
    (m.advance p).currentState = KeyMatchingState.RetainedMatch := by
  rcases hp with h | h | h <;>
    rw [advance_eq_step m p (by simp [h]) (by simp [h])] <;>
    simp [KeyMatcher.advanceStep, h, hk]

/-- A real chord in a progress state whose extended buffer reaches an
internal node moves to ImprovedMatch, appending the chord. -/
theorem advance_inProgress_internal (m : KeyMatcher) (c : KeyPress) (n1 : TrieNode KeyMap)
    (hp : inProgress m.currentState)
    (hk : c.classification ≠ KeyClassification.NoKey)
    (hb : bestMatch m.trie (m.currentSequence ++ [c]) = some n1)
    (hl : n1.isLeaf = false) :
    (m.advance c).trie = m.trie ∧
    (m.advance c).currentSequence = m.currentSequence ++ [c] ∧
    (m.advance c).currentState = KeyMatchingState.ImprovedMatch := by
  rcases hp with h | h | h <;>
    rw [advance_eq_step m c (by simp [h]) (by simp [h])] <;>
    simp [KeyMatcher.advanceStep, h, hk, classifyMatch, hb, hl]

/-- A real chord in a progress state whose extended buffer reaches a
leaf moves to SuccessMatch and caches the leaf's values. -/
theorem advance_inProgress_leaf (m : KeyMatcher) (c : KeyPress) (n1 : TrieNode KeyMap)
    (hp : inProgress m.currentState)
    (hk : c.classification ≠ KeyClassification.NoKey)
    (hb : bestMatch m.trie (m.currentSequence ++ [c]) = some n1)
    (hl : n1.isLeaf = true) :
    (m.advance c).currentState = KeyMatchingState.SuccessMatch ∧
    (m.advance c).currentMatches = n1.leafValues := by
  rcases hp with h | h | h <;>
    rw [advance_eq_step m c (by simp [h]) (by simp [h])] <;>
    simp [KeyMatcher.advanceStep, h, hk, classifyMatch, hb, hl, matchesUnder]

/-- From the NoMatch state, a chord whose buffer reaches an internal
node starts a match. -/
theorem advance_noMatch_internal (m : KeyMatcher) (c : KeyPress) (n1 : TrieNode KeyMap)
    (h0 : m.currentState = KeyMatchingState.NoMatch)
    (hb : bestMatch m.trie (m.currentSequence ++ [c]) = some n1)
    (hl : n1.isLeaf = false) :
    (m.advance c).trie = m.trie ∧
    (m.advance c).currentSequence = m.currentSequence ++ [c] ∧
    (m.advance c).currentState = KeyMatchingState.StartedMatch := by
  rw [advance_eq_step m c (by simp [h0]) (by simp [h0])]
  simp [KeyMatcher.advanceStep, h0, classifyMatch, hb, hl]

/-- From the NoMatch state, a chord whose buffer reaches a leaf succeeds
immediately. -/
theorem advance_noMatch_leaf (m : KeyMatcher) (c : KeyPress) (n1 : TrieNode KeyMap)
    (h0 : m.currentState = KeyMatchingState.NoMatch)
    (hb : bestMatch m.trie (m.currentSequence ++ [c]) = some n1)
    (hl : n1.isLeaf = true) :
    (m.advance c).currentState = KeyMatchingState.SuccessMatch ∧
    (m.advance c).currentMatches = n1.leafValues := by
  rw [advance_eq_step m c (by simp [h0]) (by simp [h0])]
  simp [KeyMatcher.advanceStep, h0, classifyMatch, hb, hl, matchesUnder]

/-- A run over bare-modifier noise keeps the trie, the buffer and a
progress state. -/
theorem runMatcher_noise (noise : List KeyPress)
    (hn : ∀ p ∈ noise, p.classification = KeyClassification.NoKey) :
    ∀ m : KeyMatcher, inProgress m.currentState →
      (runMatcher m noise).trie = m.trie ∧
      (runMatcher m noise).currentSequence = m.currentSequence ∧
      inProgress (runMatcher m noise).currentState := by
  induction noise with
  | nil => exact fun m hp => ⟨rfl, rfl, hp⟩
  | cons p rest ih =>
    intro m hp
    have hstep := advance_inProgress_noKey m p hp (hn p (by simp))
    obtain ⟨ht, hs, hp'⟩ :=
      ih (fun q hq => hn q (List.mem_cons_of_mem _ hq)) (m.advance p)
        (Or.inr (Or.inl hstep.2.2))
    refine ⟨?_, ?_, ?_⟩
    · rw [runMatcher_cons, ht, hstep.1]
    · rw [runMatcher_cons, hs, hstep.2.1]
    · rw [runMatcher_cons]; exact hp'

/-- Main induction for the noise-idempotence claim: from any progress
state whose buffer extends to the target leaf along the remaining
sequence, running the noised remainder ends in SuccessMatch with the
leaf's binding cached. -/
theorem noiseRun_success (t : TrieNode KeyMap) (km : KeyMap) (n : TrieNode KeyMap)
    (hleaf : n.isLeaf = true) (hval : n.boundValue = some km) :
    ∀ (s s' : List KeyPress), NoiseBetween s s' →
      ∀ m : KeyMatcher, m.trie = t → inProgress m.currentState →
        (∀ c ∈ s, c.classification ≠ KeyClassification.NoKey) →
        bestMatch t (m.currentSequence ++ s) = some n →
        (runMatcher m s').currentState = KeyMatchingState.SuccessMatch ∧
        (runMatcher m s').currentMatches = [some km] := by
  intro s s' hns
  induction hns with
  | last c =>
    intro m ht hp hcls hwalk
    have hb : bestMatch m.trie (m.currentSequence ++ [c]) = some n := by
      rw [ht]; exact hwalk
    have hres := advance_inProgress_leaf m c n hp (hcls c (by simp)) hb hleaf
    rw [leafValues_of_leaf n hleaf, hval] at hres
    exact hres
  | cons c noise s2 s2' hnk hrec ih =>
    intro m ht hp hcls hwalk
    have hsplit : bestMatch t ((m.currentSequence ++ [c]) ++ s2) = some n := by
      rw [List.append_assoc]
      exact hwalk
    have hmid := bestMatch_append t (m.currentSequence ++ [c]) s2
    rw [hsplit] at hmid
    cases hb1 : bestMatch t (m.currentSequence ++ [c]) with
    | none => rw [hb1] at hmid; simp at hmid
    | some n1 =>
      rw [hb1] at hmid
      simp only [Option.some_bind] at hmid
      cases hs2 : s2 with
      | nil => exact absurd hs2 (noiseBetween_ne_nil hrec)
      | cons d r =>
        have hnl : n1.isLeaf = false := by
          apply isLeaf_false_of_walk_cons n1 n d r
          rw [← hs2, ← hmid]
        have hstep := advance_inProgress_internal m c n1 hp (hcls c (by simp))
          (by rw [ht]; exact hb1) hnl
        have hnoise := runMatcher_noise noise hnk (m.advance c)
          (Or.inr (Or.inr hstep.2.2))
        have happ := ih (runMatcher (m.advance c) noise)
          (by rw [hnoise.1, hstep.1, ht])
          hnoise.2.2
          (fun q hq => hcls q (List.mem_cons_of_mem _ hq))
          (by rw [hnoise.2.1, hstep.2.1]; exact hsplit)
        rw [runMatcher_cons, runMatcher_append]
        exact happ

/-- Claim C4: for a binding stored at a leaf of the trie whose sequence
chords are all Normal or Special, feeding a fresh engine the sequence
with any number of bare-modifier chords inserted between consecutive
chords ends in the same final outcome as feeding the plain sequence:
SuccessMatch with that binding resolved by fullMatch. -/
theorem noise_interleaving_preserves_success (t : TrieNode KeyMap)
    (s s' : List KeyPress) (km : KeyMap) (n : TrieNode KeyMap)
    (hwalk : bestMatch t s = some n) (hleaf : n.isLeaf = true)
    (hval : n.boundValue = some km)
    (hcls : ∀ c ∈ s, c.classification ≠ KeyClassification.NoKey)
    (hnoise : NoiseBetween s s') :
    (runMatcher (KeyMatcher.init t) s').currentState = KeyMatchingState.SuccessMatch ∧
    (runMatcher (KeyMatcher.init t) s').fullMatch = some km ∧
    (runMatcher (KeyMatcher.init t) s).currentState = KeyMatchingState.SuccessMatch ∧
    (runMatcher (KeyMatcher.init t) s).fullMatch = some km := by
  have key : ∀ s'' : List KeyPress, NoiseBetween s s'' →
      (runMatcher (KeyMatcher.init t) s'').currentState = KeyMatchingState.SuccessMatch ∧
      (runMatcher (KeyMatcher.init t) s'').currentMatches = [some km] := by
    intro s'' hn2
    cases hn2 with
    | last c =>
      have hb : bestMatch (KeyMatcher.init t).trie
          ((KeyMatcher.init t).currentSequence ++ [c]) = some n := by
        simpa [KeyMatcher.init] using hwalk
      have hres := advance_noMatch_leaf (KeyMatcher.init t) c n rfl hb hleaf
      rw [leafValues_of_leaf n hleaf, hval] at hres
      exact hres
    | cons c noise s2 s2' hnk hrec =>
      have hsplit : bestMatch t ([c] ++ s2) = some n := hwalk
      have hmid := bestMatch_append t [c] s2
      rw [hsplit] at hmid
      cases hb1 : bestMatch t [c] with
      | none => rw [hb1] at hmid; simp at hmid
      | some n1 =>
        rw [hb1] at hmid
        simp only [Option.some_bind] at hmid
        cases hs2 : s2 with
        | nil => exact absurd hs2 (noiseBetween_ne_nil hrec)
        | cons d r =>
          have hnl : n1.isLeaf = false := by
            apply isLeaf_false_of_walk_cons n1 n d r
            rw [← hs2, ← hmid]
          have hstep := advance_noMatch_internal (KeyMatcher.init t) c n1 rfl
            (by simpa [KeyMatcher.init] using hb1) hnl
          have hnoise2 := runMatcher_noise noise hnk ((KeyMatcher.init t).advance c)
            (Or.inl hstep.2.2)
          have happ := noiseRun_success t km n hleaf hval s2 s2' hrec
            (runMatcher ((KeyMatcher.init t).advance c) noise)
            (by rw [hnoise2.1, hstep.1]; rfl)
            hnoise2.2.2
            (fun q hq => hcls q (List.mem_cons_of_mem _ hq))
            (by rw [hnoise2.2.1, hstep.2.1]; simpa [KeyMatcher.init] using hwalk)
          rw [runMatcher_cons, runMatcher_append]
          exact happ
  obtain ⟨h1, h2⟩ := key s' hnoise
  obtain ⟨h3, h4⟩ := key s (noiseBetween_self s (noiseBetween_ne_nil hnoise))
  exact ⟨h1, fullMatch_of_single _ km h1 h2, h3, fullMatch_of_single _ km h3 h4⟩

/-- Witness for noise_interleaving_preserves_success: the focus-left
binding Ctrl+b, h with a bare Shift chord interleaved. -/
theorem noise_interleaving_witness :
    (runMatcher (KeyMatcher.init trieDemo)
        [pressCtrlB, pressShiftBare, pressH]).currentState
      = KeyMatchingState.SuccessMatch ∧
    (runMatcher (KeyMatcher.init trieDemo)
        [pressCtrlB, pressShiftBare, pressH]).fullMatch = some kmFocusLeft ∧
    (runMatcher (KeyMatcher.init trieDemo) [pressCtrlB, pressH]).currentState
      = KeyMatchingState.SuccessMatch ∧
    (runMatcher (KeyMatcher.init trieDemo) [pressCtrlB, pressH]).fullMatch
      = some kmFocusLeft :=
  noise_interleaving_preserves_success trieDemo [pressCtrlB, pressH]
    [pressCtrlB, pressShiftBare, pressH] kmFocusLeft
    (TrieNode.mk (some (some kmFocusLeft)) [])
    rfl rfl rfl (by decide)
    (NoiseBetween.cons pressCtrlB [pressShiftBare] [pressH] [pressH]
      (by decide) (NoiseBetween.last pressH))

/-! ## Lemmas for the serialization-injectivity claim -/

/-- The character list of a serialized chord: the markers of the active
modifiers in order meta, ctrl, alt, shift, then the key characters. -/
theorem serialize_data (p : KeyPress) :
    (p.serialize).data =
      markIf p.meta metaMark ++
      (markIf p.ctrl ctrlMark ++
       (markIf p.alt altMark ++ (markIf p.shift shiftMark ++ p.key.data))) := by
  unfold KeyPress.serialize KeyPress.repr
  cases p.meta <;> cases p.ctrl <;> cases p.alt <;> cases p.shift <;>
    simp [String.data_append, markIf, metaMark, ctrlMark, altMark, shiftMark]

/-- The separator is detected wherever it occurs. -/
theorem containsSep_append (pre suf : List Char) :
    containsSep (pre ++ ' ' :: '+' :: ' ' :: suf) = true := by
  induction pre with
  | nil => rfl
  | cons x rest ih =>
    show (startsSep (x :: (rest ++ ' ' :: '+' :: ' ' :: suf)) ||
      containsSep (rest ++ ' ' :: '+' :: ' ' :: suf)) = true
    rw [ih]
    simp

/-- Strings with equal character lists are equal. -/
theorem key_eq_of_data_eq (k1 k2 : String) (h : k1.data = k2.data) : k1 = k2 :=
  String.ext h

/-- Cancellation at the shift marker stage. -/
theorem stage_shift (s1 s2 : Bool) (k1 k2 : String)
    (g1 : plainKey k1) (g2 : plainKey k2)
    (h : markIf s1 shiftMark ++ k1.data = markIf s2 shiftMark ++ k2.data) :
    s1 = s2 ∧ k1 = k2 := by
  unfold plainKey at g1 g2
  cases s1 <;> cases s2 <;> simp only [markIf, List.nil_append] at h
  · exact ⟨rfl, key_eq_of_data_eq _ _ h⟩
  · exfalso
    have hc : containsSep k1.data = true := by
      rw [h]
      exact containsSep_append ['⇧'] k2.data
    rw [hc] at g1
    exact Bool.noConfusion g1
  · exfalso
    have hc : containsSep k2.data = true := by
      rw [← h]
      exact containsSep_append ['⇧'] k1.data
    rw [hc] at g2
    exact Bool.noConfusion g2
  · exact ⟨rfl, key_eq_of_data_eq _ _ (List.append_cancel_left h)⟩

/-- Cancellation at the alt marker stage. -/
theorem stage_alt (a1 a2 s1 s2 : Bool) (k1 k2 : String)
    (g1 : plainKey k1) (g2 : plainKey k2)
    (h : markIf a1 altMark ++ (markIf s1 shiftMark ++ k1.data)
       = markIf a2 altMark ++ (markIf s2 shiftMark ++ k2.data)) :
    a1 = a2 ∧ s1 = s2 ∧ k1 = k2 := by
  cases a1 <;> cases a2 <;> simp only [markIf, List.nil_append] at h
  · exact ⟨rfl, stage_shift s1 s2 k1 k2 g1 g2 h⟩
  · exfalso
    cases s1 <;> simp only [markIf, List.nil_append] at h
    · unfold plainKey at g1
      have hc : containsSep k1.data = true := by
        rw [h]
        exact containsSep_append ['A', 'l', 't'] _
      rw [hc] at g1
      exact Bool.noConfusion g1
    · simp [shiftMark, altMark] at h
  · exfalso
    cases s2 <;> simp only [markIf, List.nil_append] at h
    · unfold plainKey at g2
      have hc : containsSep k2.data = true := by
        rw [← h]
        exact containsSep_append ['A', 'l', 't'] _
      rw [hc] at g2
      exact Bool.noConfusion g2
    · simp [shiftMark, altMark] at h
  · exact ⟨rfl, stage_shift s1 s2 k1 k2 g1 g2 (List.append_cancel_left h)⟩

/-- Cancellation at the ctrl marker stage. -/
theorem stage_ctrl (c1 c2 a1 a2 s1 s2 : Bool) (k1 k2 : String)
    (g1 : plainKey k1) (g2 : plainKey k2)
    (h : markIf c1 ctrlMark ++ (markIf a1 altMark ++ (markIf s1 shiftMark ++ k1.data))
       = markIf c2 ctrlMark ++ (markIf a2 altMark ++ (markIf s2 shiftMark ++ k2.data))) :
    c1 = c2 ∧ a1 = a2 ∧ s1 = s2 ∧ k1 = k2 := by
  cases c1 <;> cases c2 <;> simp only [markIf, List.nil_append] at h
  · exact ⟨rfl, stage_alt a1 a2 s1 s2 k1 k2 g1 g2 h⟩
  · exfalso
    cases a1 <;> simp only [markIf, List.nil_append] at h
    · cases s1 <;> simp only [markIf, List.nil_append] at h
      · unfold plainKey at g1
        have hc : containsSep k1.data = true := by
          rw [h]
          exact containsSep_append ['C', 't', 'r', 'l'] _
        rw [hc] at g1
        exact Bool.noConfusion g1
      · simp [shiftMark, ctrlMark] at h
    · simp [altMark, ctrlMark] at h
  · exfalso
    cases a2 <;> simp only [markIf, List.nil_append] at h
    · cases s2 <;> simp only [markIf, List.nil_append] at h
      · unfold plainKey at g2
        have hc : containsSep k2.data = true := by
          rw [← h]
          exact containsSep_append ['C', 't', 'r', 'l'] _
        rw [hc] at g2
        exact Bool.noConfusion g2
      · simp [shiftMark, ctrlMark] at h
    · simp [altMark, ctrlMark] at h
  · exact ⟨rfl, stage_alt a1 a2 s1 s2 k1 k2 g1 g2 (List.append_cancel_left h)⟩

/-- Cancellation at the meta marker stage. -/
theorem stage_meta (m1 m2 c1 c2 a1 a2 s1 s2 : Bool) (k1 k2 : String)
    (g1 : plainKey k1) (g2 : plainKey k2)
    (h : markIf m1 metaMark ++
          (markIf c1 ctrlMark ++ (markIf a1 altMark ++ (markIf s1 shiftMark ++ k1.data)))
       = markIf m2 metaMark ++
          (markIf c2 ctrlMark ++ (markIf a2 altMark ++ (markIf s2 shiftMark ++ k2.data)))) :
    m1 = m2 ∧ c1 = c2 ∧ a1 = a2 ∧ s1 = s2 ∧ k1 = k2 := by
  cases m1 <;> cases m2 <;> simp only [markIf, List.nil_append] at h
  · exact ⟨rfl, stage_ctrl c1 c2 a1 a2 s1 s2 k1 k2 g1 g2 h⟩
  · exfalso
    cases c1 <;> simp only [markIf, List.nil_append] at h
    · cases a1 <;> simp only [markIf, List.nil_append] at h
      · cases s1 <;> simp only [markIf, List.nil_append] at h
        · unfold plainKey at g1
          have hc : containsSep k1.data = true := by
            rw [h]
            exact containsSep_append ['⌘'] _
          rw [hc] at g1
          exact Bool.noConfusion g1
        · simp [shiftMark, metaMark] at h
      · simp [altMark, metaMark] at h
    · simp [ctrlMark, metaMark] at h
  · exfalso
    cases c2 <;> simp only [markIf, List.nil_append] at h
    · cases a2 <;> simp only [markIf, List.nil_append] at h
      · cases s2 <;> simp only [markIf, List.nil_append] at h
        · unfold plainKey at g2
          have hc : containsSep k2.data = true := by
            rw [← h]
            exact containsSep_append ['⌘'] _
          rw [hc] at g2
          exact Bool.noConfusion g2
        · simp [shiftMark, metaMark] at h
      · simp [altMark, metaMark] at h
    · simp [ctrlMark, metaMark] at h
  · exact ⟨rfl, stage_ctrl c1 c2 a1 a2 s1 s2 k1 k2 g1 g2 (List.append_cancel_left h)⟩


/-- Claim C7 (counterexample): the canonical serialization is not
injective over all chords differing in one of the five fields: the
unmodified chord whose key is the literal string Ctrl-space-plus-space-a
serializes identically to the ctrl-modified chord with key a, though the
two differ in both key and ctrl. -/
theorem serialize_collision :
    KeyPress.mk "Ctrl + a" false false false false
        ≠ KeyPress.mk "a" false false true false ∧
    (KeyPress.mk "Ctrl + a" false false false false).serialize
        = (KeyPress.mk "a" false false true false).serialize := by
  constructor
  · decide
  · rfl

/-- Claim C7 (amended): the canonical serialization is injective on
chords whose key string does not contain the modifier separator
(space, plus, space): any two such chords with equal serializations are
equal in all five fields.  The restriction is forced by the collision
exhibited above, whose key embeds a serialized modifier marker. -/
theorem serialize_inj_plain (p q : KeyPress)
    (g1 : plainKey p.key) (g2 : plainKey q.key)
    (h : p.serialize = q.serialize) : p = q := by
  have hd : p.serialize.data = q.serialize.data := by rw [h]
  rw [serialize_data, serialize_data] at hd
  obtain ⟨hm, hc, ha, hs, hk⟩ :=
    stage_meta p.meta q.meta p.ctrl q.ctrl p.alt q.alt p.shift q.shift p.key q.key g1 g2 hd
  rcases p with ⟨k1, s1, a1, ct1, m1⟩
  rcases q with ⟨k2, s2, a2, ct2, m2⟩
  simp only at hm hc ha hs hk
  rw [hm, hc, ha, hs, hk]

/-- Witness for serialize_inj_plain at concrete equal-serialization
chords. -/
theorem serialize_inj_plain_witness :
    KeyPress.mk "h" false false false false = pressH :=
  serialize_inj_plain (KeyPress.mk "h" false false false false) pressH
    (by unfold plainKey; decide) (by unfold plainKey; decide) rfl
